import Mathlib

/-!
Verification of the `make-our-better` experience store
(`src/make_our_better/server.py`) against its specification.

Shallow embedding notes:
* A JSON experience object is modelled by `Exp`; a field whose value is
  `none` models a key that is absent from the object (Python
  `dict.get(k, default)` then returns the default).  Python strings are
  Lean `String`s; `str.lower` is modelled per-character, which agrees
  with Python on ASCII text (the tokenizer's word class is modelled as
  the spec's minimum class: ASCII alphanumerics, underscore, and the
  CJK block U+4E00..U+9FFF of the regex `[\w一-鿿]+`).
* The experience log (`experience.jsonl`) is a list of `LogLine`s:
  `good e` is a line that parses as JSON object `e`; `bad` is an empty
  or unparsable line (both are skipped by every reader, per the
  `try/except json.JSONDecodeError: continue` blocks).
* Python `set`s are modelled as first-occurrence-deduplicated lists;
  Python `dict`s as association lists in insertion order.  Set
  iteration order in Python is unspecified; every property proved below
  is insensitive to it.
* Python's stable `sorted`/`list.sort` is modelled by a stable
  insertion sort `stableSort`: for a total preorder the output of any
  stable sort is the same list, and this one is kernel-computable.
* `uuid.uuid4()` and `datetime.now()` are nondeterministic inputs and
  are passed as explicit arguments (`newId`, `now`).
* An uncaught Python exception (the `TypeError` raised by
  `" ".join` on a `None` field) is modelled by the result
  `CallResult.typeError`.
-/

namespace MakeOurBetter

/-- Python word-character test for the regex class `[\w一-鿿]`,
restricted to the spec's minimum class (ASCII `\w` plus CJK). -/
def isWordChar (c : Char) : Bool :=
  c.isAlphanum || c == '_' || (0x4e00 ≤ c.toNat && c.toNat ≤ 0x9fff)

/-- Maximal runs of word characters, as produced left-to-right by
`re.findall(r'[\w一-鿿]+', text)`.  `acc` is the current run,
reversed. -/
def runsAux : List Char → List Char → List (List Char)
  | [], acc => if acc.isEmpty then [] else [acc.reverse]
  | c :: cs, acc =>
    if isWordChar c then runsAux cs (c :: acc)
    else if acc.isEmpty then runsAux cs []
    else acc.reverse :: runsAux cs []

def runs (cs : List Char) : List (List Char) := runsAux cs []

/-- First-occurrence deduplication (list model of a Python `set`). -/
def dedupAcc : List String → List String → List String
  | [], _ => []
  | x :: xs, seen => if x ∈ seen then dedupAcc xs seen else x :: dedupAcc xs (x :: seen)

def dedupFirst (l : List String) : List String := dedupAcc l []

/-- Per-character lowercase, as Python `str.lower` on ASCII text. -/
def toLowerStr (s : String) : String := ⟨s.data.map Char.toLower⟩

/-- `tokenize(text)` from server.py: lowercase, extract word-character
runs, keep runs of length ≥ 2, deduplicate (set semantics). -/
def tokenize (text : String) : List String :=
  dedupFirst (((runs (text.data.map Char.toLower)).map
    (fun cs => (⟨cs⟩ : String))).filter (fun s => 2 ≤ s.length))

/-- A stored experience JSON object; `none` = key absent. -/
structure Exp where
  id : Option String := none
  timestamp : Option String := none
  title : Option String := none
  problem : Option String := none
  solution : Option String := none
  keywords : Option String := none
  context : Option String := none
  votes : Option Int := none
deriving Repr, DecidableEq

/-- One line of `experience.jsonl`: parses to `e`, or is empty/corrupt. -/
inductive LogLine where
  | good (e : Exp)
  | bad
deriving Repr, DecidableEq

/-- The records recovered from a log: non-empty lines that parse;
empty and unparsable lines are skipped (never fatal). -/
def goodEntries (lines : List LogLine) : List Exp :=
  lines.filterMap (fun l => match l with | .good e => some e | .bad => none)

/-- Persistent state: the two files.  `none` = file does not exist. -/
structure ServerState where
  expFile : Option (List LogLine) := none
  indexFile : Option (List (String × List String)) := none
deriving Repr, DecidableEq

/-- `read_all_experiences()`: missing file reads as empty. -/
def read_all_experiences (st : ServerState) : List Exp :=
  match st.expFile with
  | none => []
  | some lines => goodEntries lines

/-- Python truthiness of `entry.get("id")`: present and non-empty. -/
def idTruthy : Option String → Bool
  | none => false
  | some s => s != ""

/-- The inverted index: a dict from token to id list, in insertion order. -/
abbrev Index := List (String × List String)

def indexGet : Index → String → Option (List String)
  | [], _ => none
  | (k, v) :: rest, t => if k = t then some v else indexGet rest t

/-- `if token not in index: index[token] = []` followed by
`if entry_id not in index[token]: index[token].append(entry_id)`. -/
def upsert : Index → String → String → Index
  | [], t, i => [(t, [i])]
  | (k, v) :: rest, t, i =>
    if k = t then (k, if i ∈ v then v else v ++ [i]) :: rest
    else (k, v) :: upsert rest t i

/-- The five-field search text used by `build_index`
(`" ".join` with `entry.get(field, "")` defaults). -/
def searchTextFull (e : Exp) : String :=
  e.title.getD "" ++ " " ++ e.problem.getD "" ++ " " ++ e.solution.getD "" ++ " " ++
    e.keywords.getD "" ++ " " ++ e.context.getD ""

/-- One `build_index` loop iteration: entries without a truthy id are
skipped; otherwise the id is upserted under every token. -/
def addEntryToIndex (idx : Index) (e : Exp) : Index :=
  if idTruthy e.id then
    (tokenize (searchTextFull e)).foldl (fun ix tok => upsert ix tok (e.id.getD "")) idx
  else idx

/-- `build_index()`: fold over the parsable lines of the log
(missing file yields the empty index). -/
def build_index (st : ServerState) : Index :=
  (read_all_experiences st).foldl addEntryToIndex []

/-- `load_index()`: missing file loads as the empty dict. -/
def load_index (st : ServerState) : Index := st.indexFile.getD []

/-- Result of a tool call: a returned text message, or an uncaught
`TypeError` escaping the handler. -/
inductive CallResult where
  | text (msg : String)
  | typeError
deriving Repr, DecidableEq

/-- The entry dict built by `record_experience` before writing. -/
def mkEntry (title problem solution : Option String) (keywords context : String)
    (newId now : String) : Exp :=
  { id := some newId, timestamp := some now, title := title, problem := problem,
    solution := solution, keywords := some keywords, context := some context,
    votes := some 0 }

/-- `record_experience`: appends the entry line unconditionally, then
joins the raw arguments into the index search text.  When a required
argument is absent (`None`), `" ".join` raises `TypeError` after the
append and before the index update. -/
def record_experience (st : ServerState) (title problem solution : Option String)
    (keywords context : String) (newId now : String) : ServerState × CallResult :=
  let entry := mkEntry title problem solution keywords context newId now
  let st1 : ServerState :=
    { st with expFile := some ((st.expFile.getD []) ++ [LogLine.good entry]) }
  match title, problem, solution with
  | some t, some p, some s =>
    let searchText := t ++ " " ++ p ++ " " ++ s ++ " " ++ keywords ++ " " ++ context
    let idx := (tokenize searchText).foldl (fun ix tok => upsert ix tok newId)
      (load_index st1)
    ({ st1 with indexFile := some idx },
      .text ("Experience recorded: '" ++ t ++ "' - stored for future reference"))
  | _, _, _ => (st1, .typeError)

/-- `id_to_entry[i]` / `votes_map[i]`: dict assignment in file order
means the last record with truthy id equal to `i` wins. -/
def idToEntry (exps : List Exp) (i : String) : Option Exp :=
  (exps.filter (fun e => idTruthy e.id && e.id == some i)).getLast?

/-- `votes_map.get(i, 0)` (with `entry.get("votes", 0)` at build time). -/
def votesFor (exps : List Exp) (i : String) : Int :=
  match idToEntry exps i with
  | some e => e.votes.getD 0
  | none => 0

/-- `entry_scores[i] = entry_scores.get(i, 0) + 1` on the dict-as-list. -/
def bumpScore : List (String × Nat) → String → List (String × Nat)
  | [], i => [(i, 1)]
  | (k, v) :: rest, i => if k = i then (k, v + 1) :: rest else (k, v) :: bumpScore rest i

/-- `entry_scores.get(j, 0)` on the dict-as-list (keys stay unique, so
first match is dict lookup). -/
def scoreLookup : List (String × Nat) → String → Nat
  | [], _ => 0
  | (k, v) :: rest, j => if k = j then v else scoreLookup rest j

/-- The score-accumulation loop over the query tokens. -/
def entryScores (idx : Index) (qtoks : List String) : List (String × Nat) :=
  qtoks.foldl (fun sc tok =>
    match indexGet idx tok with
    | some ids => ids.foldl bumpScore sc
    | none => sc) []

/-- `sorted(..., key=lambda x: (-x[1], -votes_map.get(x[0], 0)))`:
the "a may come no later than b" test of that key order. -/
def searchLE (exps : List Exp) (a b : String × Nat) : Bool :=
  decide (b.2 < a.2 ∨ (a.2 = b.2 ∧ votesFor exps b.1 ≤ votesFor exps a.1))

/-- Stable insertion: place `a` before the first element it may precede. -/
def insertSorted (le : α → α → Bool) (a : α) : List α → List α
  | [] => [a]
  | b :: l => if le a b then a :: b :: l else b :: insertSorted le a l

/-- Stable sort; for a total preorder this is extensionally Python's
stable `sorted`. -/
def stableSort (le : α → α → Bool) : List α → List α
  | [] => []
  | a :: l => insertSorted le a (stableSort le l)

/-- Python slice `l[:n]` for an `int` bound `n` (negative bounds count
from the end). -/
def pySlice (l : List α) (n : Int) : List α :=
  if 0 ≤ n then l.take n.toNat else l.take (l.length - (-n).toNat)

/-- `startsWithChars needle hay`: `needle` is a leading segment of `hay`. -/
def startsWithChars : List Char → List Char → Bool
  | [], _ => true
  | _ :: _, [] => false
  | a :: as, b :: bs => a == b && startsWithChars as bs

/-- Python substring test `needle in haystack`. -/
def hasSubstring : List Char → List Char → Bool
  | [], needle => needle.isEmpty
  | h :: hs, needle => startsWithChars needle (h :: hs) || hasSubstring hs needle

/-- The four-field search text of `linear_search` (no `context`). -/
def searchTextLinear (e : Exp) : String :=
  e.title.getD "" ++ " " ++ e.problem.getD "" ++ " " ++ e.solution.getD "" ++ " " ++
    e.keywords.getD ""

/-- `linear_search(query, limit)`: case-insensitive substring filter,
stable sort by votes descending, slice, no score attached. -/
def linear_search (lines : List LogLine) (query : String) (limit : Int) :
    List (Exp × Option Nat) :=
  (pySlice (stableSort (fun a b => decide ((b.votes.getD 0 : Int) ≤ a.votes.getD 0))
      ((goodEntries lines).filter
        (fun e => hasSubstring (toLowerStr (searchTextLinear e)).data
          (toLowerStr query).data)))
    limit).map (fun e => (e, none))

/-- Rank the scored candidates, truncate, and materialize full records
(`if entry_id in id_to_entry`), attaching the score. -/
def rankCandidates (exps : List Exp) (scores : List (String × Nat)) (limit : Int) :
    List (Exp × Option Nat) :=
  (pySlice (stableSort (searchLE exps) scores) limit).filterMap (fun p =>
    match idToEntry exps p.1 with
    | some e => some (e, some p.2)
    | none => none)

/-- `search_experience`: missing file and token-free query return empty;
empty rebuilt index falls back to `linear_search`; otherwise score by
index hits and rank by (score desc, votes desc).  `limit` is
`args.get("limit", 5)`. -/
def search_experience (st : ServerState) (query : String) (limit : Option Int) :
    List (Exp × Option Nat) :=
  match st.expFile with
  | none => []
  | some lines =>
    if tokenize query = [] then []
    else if build_index st = [] then linear_search lines query (limit.getD 5)
    else if entryScores (build_index st) (tokenize query) = [] then []
    else rankCandidates (goodEntries lines)
      (entryScores (build_index st) (tokenize query)) (limit.getD 5)

/-- Result of `vote_experience`. -/
inductive VoteResult where
  | voted
  | not_found
  | missing_id
deriving Repr, DecidableEq

/-- The body of the vote loop: `entry["votes"] = entry.get("votes", 0) + 1`
on every entry whose `id` equals the requested one. -/
def bumpVote (i : String) (e : Exp) : Exp :=
  if e.id = some i then { e with votes := some (e.votes.getD 0 + 1) } else e

/-- `vote_experience`: falsy id is rejected up front; otherwise every
matching record is incremented and, if any matched, the whole log is
rewritten from the parsed records. -/
def vote_experience (st : ServerState) (idArg : Option String) :
    ServerState × VoteResult :=
  if idTruthy idArg then
    let i := idArg.getD ""
    let exps := read_all_experiences st
    if exps.any (fun e => e.id == some i) then
      ({ st with expFile := some ((exps.map (bumpVote i)).map LogLine.good) },
        .voted)
    else (st, .not_found)
  else (st, .missing_id)

end MakeOurBetter

/-! ## Concrete fixtures for witnesses and counterexamples -/

namespace MakeOurBetter

def expMem1 : Exp :=
  { id := some "id-1", timestamp := some "t1", title := some "Fix memory leak in pool",
    problem := some "pool grows", solution := some "close handles",
    keywords := some "memory", context := some "", votes := some 1 }

def expMem2 : Exp :=
  { id := some "id-2", timestamp := some "t2",
    title := some "Memory leak in cache eviction", problem := some "cache grows",
    solution := some "evict entries", keywords := some "", context := some "",
    votes := some 3 }

def expNoId : Exp :=
  { id := none, timestamp := some "t3", title := some "Hello world note",
    problem := some "greeting", solution := some "wave", keywords := some "",
    context := some "", votes := some 2 }

def expNoVotes : Exp :=
  { id := some "id-n", timestamp := some "t4", title := some "Quota exceeded fix",
    problem := some "quota", solution := some "raise quota", keywords := some "",
    context := some "", votes := none }

def stOne : ServerState := { expFile := some [.good expMem1], indexFile := none }

def stTwo : ServerState :=
  { expFile := some [.good expMem1, .good expMem2], indexFile := none }

def stNoVotes : ServerState := { expFile := some [.good expNoVotes], indexFile := none }

def stNoIds : ServerState :=
  { expFile := some [.good expNoId, .bad], indexFile := none }

def st0 : ServerState := { expFile := none, indexFile := none }

end MakeOurBetter

/-! ## Library of lemmas about the embedded operations -/

namespace MakeOurBetter

theorem insertSorted_perm (le : α → α → Bool) (a : α) (l : List α) :
    (insertSorted le a l).Perm (a :: l) := by
  induction l with
  | nil => simp [insertSorted]
  | cons b l ih =>
    simp only [insertSorted]
    by_cases h : le a b
    · simp [h]
    · simp only [h, if_neg, Bool.false_eq_true, if_false]
      exact (ih.cons b).trans (List.Perm.swap a b l)

theorem stableSort_perm (le : α → α → Bool) (l : List α) :
    (stableSort le l).Perm l := by
  induction l with
  | nil => simp [stableSort]
  | cons a l ih =>
    exact (insertSorted_perm le a (stableSort le l)).trans (ih.cons a)

theorem mem_stableSort (le : α → α → Bool) (l : List α) (x : α) :
    x ∈ stableSort le l ↔ x ∈ l :=
  (stableSort_perm le l).mem_iff

theorem length_stableSort (le : α → α → Bool) (l : List α) :
    (stableSort le l).length = l.length :=
  (stableSort_perm le l).length_eq

theorem pairwise_insertSorted (le : α → α → Bool)
    (htot : ∀ a b, le a b = true ∨ le b a = true)
    (htrans : ∀ a b c, le a b = true → le b c = true → le a c = true)
    (a : α) (l : List α) (h : l.Pairwise (fun x y => le x y = true)) :
    (insertSorted le a l).Pairwise (fun x y => le x y = true) := by
  induction l with
  | nil => simp [insertSorted]
  | cons b l ih =>
    rw [List.pairwise_cons] at h
    obtain ⟨hb, hl⟩ := h
    by_cases hab : le a b = true
    · simp only [insertSorted, hab, if_true]
      refine List.Pairwise.cons ?_ (List.Pairwise.cons hb hl)
      intro c hc
      rcases List.mem_cons.mp hc with rfl | hc
      · exact hab
      · exact htrans a b c hab (hb c hc)
    · simp only [insertSorted, hab, Bool.false_eq_true, if_false]
      refine List.Pairwise.cons ?_ (ih hl)
      intro c hc
      rcases List.mem_cons.mp ((insertSorted_perm le a l).mem_iff.mp hc) with rfl | hc
      · rcases htot c b with h' | h'
        · exact absurd h' hab
        · exact h'
      · exact hb c hc

theorem pairwise_stableSort (le : α → α → Bool)
    (htot : ∀ a b, le a b = true ∨ le b a = true)
    (htrans : ∀ a b c, le a b = true → le b c = true → le a c = true)
    (l : List α) :
    (stableSort le l).Pairwise (fun x y => le x y = true) := by
  induction l with
  | nil => simp [stableSort]
  | cons a l ih => exact pairwise_insertSorted le htot htrans a _ ih

theorem mem_dedupAcc (l : List String) :
    ∀ (seen : List String) (x : String), x ∈ dedupAcc l seen ↔ x ∈ l ∧ x ∉ seen := by
  induction l with
  | nil => intro seen x; simp [dedupAcc]
  | cons y l ih =>
    intro seen x
    by_cases hy : y ∈ seen
    · rw [dedupAcc, if_pos hy, ih]
      constructor
      · rintro ⟨hx, hs⟩
        exact ⟨List.mem_cons_of_mem y hx, hs⟩
      · rintro ⟨hx, hs⟩
        rcases List.mem_cons.mp hx with rfl | hx
        · exact absurd hy hs
        · exact ⟨hx, hs⟩
    · rw [dedupAcc, if_neg hy]
      constructor
      · intro hmem
        rcases List.mem_cons.mp hmem with rfl | hmem
        · exact ⟨List.mem_cons_self x l, hy⟩
        · obtain ⟨hx, hs⟩ := (ih _ _).mp hmem
          refine ⟨List.mem_cons_of_mem y hx, fun hc => hs (List.mem_cons_of_mem y hc)⟩
      · rintro ⟨hx, hs⟩
        rcases List.mem_cons.mp hx with rfl | hx
        · exact List.mem_cons_self x _
        · by_cases hxy : x = y
          · subst hxy
            exact List.mem_cons_self x _
          · refine List.mem_cons_of_mem y ((ih _ _).mpr ⟨hx, ?_⟩)
            intro hc
            rcases List.mem_cons.mp hc with h1 | h1
            · exact hxy h1
            · exact hs h1

theorem mem_dedupFirst (l : List String) (x : String) :
    x ∈ dedupFirst l ↔ x ∈ l := by
  simp [dedupFirst, mem_dedupAcc]

theorem runsAux_append {c : Char} (hc : isWordChar c = false) (ys : List Char) :
    ∀ (xs : List Char) (acc : List Char),
      runsAux (xs ++ c :: ys) acc = runsAux xs acc ++ runsAux ys [] := by
  intro xs
  induction xs with
  | nil =>
    intro acc
    by_cases ha : acc.isEmpty
    · simp [runsAux, hc, ha]
    · simp [runsAux, hc, ha]
  | cons x xs ih =>
    intro acc
    rw [List.cons_append]
    by_cases hx : isWordChar x
    · simp only [runsAux, hx, if_true]
      exact ih (x :: acc)
    · by_cases ha : acc.isEmpty
      · simp only [runsAux, hx, Bool.false_eq_true, if_false, ha, if_true]
        exact ih []
      · simp only [runsAux, hx, Bool.false_eq_true, if_false, ha, List.cons_append]
        exact congrArg (List.cons acc.reverse) (ih [])

theorem runs_append {c : Char} (hc : isWordChar c = false) (xs ys : List Char) :
    runs (xs ++ c :: ys) = runs xs ++ runs ys := by
  simp [runs, runsAux_append hc]

/-- Tokens of the left part of a space-separated concatenation are
tokens of the whole. -/
theorem mem_tokenize_append (t : String) (a b : String) (h : t ∈ tokenize a) :
    t ∈ tokenize (a ++ " " ++ b) := by
  have hdata : (a ++ " " ++ b).data = a.data ++ ' ' :: b.data := by
    rw [String.data_append, String.data_append, List.append_assoc]
    rfl
  have hlow : (a ++ " " ++ b).data.map Char.toLower
      = a.data.map Char.toLower ++ ' ' :: b.data.map Char.toLower := by
    rw [hdata, List.map_append, List.map_cons]
    rfl
  have hsp : isWordChar ' ' = false := by decide
  rw [tokenize, mem_dedupFirst] at h ⊢
  rw [hlow, runs_append hsp, List.map_append, List.filter_append]
  exact List.mem_append_left _ h

theorem scoreLookup_bumpScore (sc : List (String × Nat)) (i j : String) :
    scoreLookup (bumpScore sc i) j
      = scoreLookup sc j + (if i = j then 1 else 0) := by
  induction sc with
  | nil =>
    by_cases h : i = j
    · subst h; simp [bumpScore, scoreLookup]
    · simp [bumpScore, scoreLookup, h, Ne.symm h]
  | cons kv rest ih =>
    obtain ⟨k, v⟩ := kv
    by_cases hk : k = i
    · subst hk
      by_cases hj : k = j
      · subst hj; simp [bumpScore, scoreLookup]
      · simp [bumpScore, scoreLookup, hj]
    · by_cases hj : k = j
      · subst hj
        have : i ≠ k := fun h => hk h.symm
        simp [bumpScore, scoreLookup, hk, this]
      · simp [bumpScore, scoreLookup, hk, hj, ih]

theorem scoreLookup_foldl_bump (ids : List String) :
    ∀ (sc : List (String × Nat)) (j : String),
      scoreLookup (ids.foldl bumpScore sc) j = scoreLookup sc j + ids.count j := by
  induction ids with
  | nil => intro sc j; simp
  | cons i ids ih =>
    intro sc j
    rw [List.foldl_cons, ih, scoreLookup_bumpScore, List.count_cons]
    by_cases h : i = j
    · subst h
      simp only [if_pos rfl, beq_self_eq_true, if_true]
      omega
    · have hbj : (i == j) = false := beq_eq_false_iff_ne.mpr h
      simp only [if_neg h, hbj, Bool.false_eq_true, if_false]
      omega

theorem scoreLookup_entryScores (idx : Index) (qtoks : List String) (j : String) :
    scoreLookup (entryScores idx qtoks) j
      = (qtoks.map (fun tok => ((indexGet idx tok).getD []).count j)).sum := by
  suffices h : ∀ (qt : List String) (sc : List (String × Nat)),
      scoreLookup (qt.foldl (fun sc tok =>
        match indexGet idx tok with
        | some ids => ids.foldl bumpScore sc
        | none => sc) sc) j
      = scoreLookup sc j + (qt.map (fun tok => ((indexGet idx tok).getD []).count j)).sum by
    have := h qtoks []
    simpa [entryScores, scoreLookup] using this
  intro qt
  induction qt with
  | nil => intro sc; simp
  | cons tok qt ih =>
    intro sc
    rw [List.foldl_cons, ih, List.map_cons, List.sum_cons]
    cases hg : indexGet idx tok with
    | none => simp [hg]
    | some ids => simp [hg, scoreLookup_foldl_bump]; omega

theorem mem_of_scoreLookup_pos (sc : List (String × Nat)) (j : String)
    (h : 0 < scoreLookup sc j) : (j, scoreLookup sc j) ∈ sc := by
  induction sc with
  | nil => simp [scoreLookup] at h
  | cons kv rest ih =>
    obtain ⟨k, v⟩ := kv
    by_cases hk : k = j
    · subst hk
      simp only [scoreLookup, if_true] at h ⊢
      simp [scoreLookup]
    · simp only [scoreLookup, hk, if_false] at h ⊢
      simp only [List.mem_cons]
      exact Or.inr (by simpa [scoreLookup, hk] using ih h)

theorem mem_indexGet_upsert_self (idx : Index) (t i : String) :
    i ∈ (indexGet (upsert idx t i) t).getD [] := by
  induction idx with
  | nil => simp [upsert, indexGet]
  | cons kv rest ih =>
    obtain ⟨k, v⟩ := kv
    by_cases hk : k = t
    · subst hk
      by_cases hv : i ∈ v
      · simp [upsert, indexGet, hv]
      · simp [upsert, indexGet, hv]
    · simp only [upsert, hk, if_false, indexGet]
      simpa [hk] using ih

theorem mem_indexGet_upsert (idx : Index) (t t' i j : String)
    (h : i ∈ (indexGet idx t).getD []) :
    i ∈ (indexGet (upsert idx t' j) t).getD [] := by
  induction idx with
  | nil => simp [indexGet] at h
  | cons kv rest ih =>
    obtain ⟨k, v⟩ := kv
    by_cases hk' : k = t'
    · subst hk'
      by_cases hk : k = t
      · subst hk
        rw [indexGet, if_pos rfl] at h
        simp only [upsert, if_pos rfl, indexGet, Option.getD_some]
        by_cases hj : j ∈ v
        · simpa [hj] using h
        · simp only [hj, if_false]
          exact List.mem_append_left _ h
      · rw [indexGet, if_neg hk] at h
        simpa [upsert, indexGet, hk] using h
    · by_cases hk : k = t
      · subst hk
        rw [indexGet, if_pos rfl] at h
        simpa [upsert, indexGet, hk'] using h
      · rw [indexGet, if_neg hk] at h
        simpa [upsert, indexGet, hk', hk] using ih h

theorem mem_indexGet_foldl_upsert (toks : List String) (i : String) :
    ∀ (idx : Index) (t : String), i ∈ (indexGet idx t).getD [] →
      i ∈ (indexGet (toks.foldl (fun ix tok => upsert ix tok i) idx) t).getD [] := by
  induction toks with
  | nil => intro idx t h; exact h
  | cons tok toks ih =>
    intro idx t h
    exact ih _ _ (mem_indexGet_upsert _ _ _ _ _ h)

theorem mem_indexGet_foldl_upsert_of_mem (toks : List String) (i t : String)
    (ht : t ∈ toks) :
    ∀ idx : Index,
      i ∈ (indexGet (toks.foldl (fun ix tok => upsert ix tok i) idx) t).getD [] := by
  induction toks with
  | nil => cases ht
  | cons tok toks ih =>
    intro idx
    rcases List.mem_cons.mp ht with rfl | ht
    · exact mem_indexGet_foldl_upsert toks i _ _ (mem_indexGet_upsert_self idx t i)
    · exact ih ht _

theorem indexGet_ne_nil (idx : Index) (t i : String)
    (h : i ∈ (indexGet idx t).getD []) : idx ≠ [] := by
  intro hn
  subst hn
  simp [indexGet] at h

theorem goodEntries_append (l₁ l₂ : List LogLine) :
    goodEntries (l₁ ++ l₂) = goodEntries l₁ ++ goodEntries l₂ :=
  List.filterMap_append l₁ l₂ _

theorem goodEntries_good (e : Exp) (l : List LogLine) :
    goodEntries (LogLine.good e :: l) = e :: goodEntries l := by
  simp [goodEntries, List.filterMap_cons]

theorem goodEntries_bad (l : List LogLine) :
    goodEntries (LogLine.bad :: l) = goodEntries l := by
  simp [goodEntries, List.filterMap_cons]

theorem idTruthy_some {i : String} (hne : i ≠ "") : idTruthy (some i) = true := by
  simp [idTruthy, hne]

theorem idToEntry_concat (exps : List Exp) (e : Exp) (i : String)
    (hid : e.id = some i) (hne : i ≠ "") :
    idToEntry (exps ++ [e]) i = some e := by
  unfold idToEntry
  rw [List.filter_append]
  have he : (idTruthy e.id && e.id == some i) = true := by
    simp [hid, idTruthy_some hne]
  rw [List.filter_cons, if_pos he]
  simp only [List.filter_nil]
  exact List.getLast?_concat _

theorem pySlice_eq_self {α : Type} {l : List α} {n : Int}
    (h : (l.length : Int) ≤ n) : pySlice l n = l := by
  have h0 : 0 ≤ n := le_trans (Int.natCast_nonneg _) h
  rw [pySlice, if_pos h0]
  apply List.take_of_length_le
  omega

theorem length_pySlice_le {α : Type} (l : List α) {n : Int} (h0 : 0 ≤ n) :
    (pySlice l n).length ≤ n.toNat := by
  rw [pySlice, if_pos h0]
  calc (l.take n.toNat).length = min n.toNat l.length := List.length_take _ _
    _ ≤ n.toNat := min_le_left _ _

theorem pairwise_filterMap_of_pairwise {α β : Type} {R : α → α → Prop}
    {S : β → β → Prop} (f : α → Option β)
    (hf : ∀ a b x y, R a b → f a = some x → f b = some y → S x y) :
    ∀ l : List α, l.Pairwise R → (l.filterMap f).Pairwise S := by
  intro l
  induction l with
  | nil => intro _; simp
  | cons a l ih =>
    intro h
    rw [List.pairwise_cons] at h
    obtain ⟨ha, hl⟩ := h
    rw [List.filterMap_cons]
    cases hfa : f a with
    | none => exact ih hl
    | some x =>
      refine List.Pairwise.cons ?_ (ih hl)
      intro y hy
      obtain ⟨b, hb, hfb⟩ := List.mem_filterMap.mp hy
      exact hf a b x y (ha b hb) hfa hfb

/-- `read_all_experiences` after a full rewrite recovers the written records. -/
theorem goodEntries_map_good (l : List Exp) :
    goodEntries (l.map LogLine.good) = l := by
  induction l with
  | nil => rfl
  | cons e l ih => rw [List.map_cons, goodEntries_good, ih]

/-- A successful vote rewrites the log with every matching record bumped. -/
theorem vote_rewrite (st : ServerState) (i : String) (hne : i ≠ "")
    (hany : (read_all_experiences st).any (fun e => e.id == some i) = true) :
    vote_experience st (some i)
      = ({ st with
            expFile := some (((read_all_experiences st).map (bumpVote i)).map LogLine.good) },
        VoteResult.voted) := by
  rw [vote_experience, if_pos (idTruthy_some hne)]
  simp only [Option.getD_some]
  rw [if_pos hany]

end MakeOurBetter

-- quick sanity checks of the embedding on concrete data
namespace MakeOurBetter

example : tokenize "A a AA" = ["aa"] := by decide
example : tokenize "Fix memory leak in pool" = ["fix", "memory", "leak", "in", "pool"] := by decide
example : hasSubstring "hello world".data "lo wo".data = true := by decide
example : hasSubstring "hello".data "world".data = false := by decide
example : stableSort (fun a b => decide (a ≤ b)) [3, 1, 2] = [1, 2, 3] := by decide
example : pySlice [1, 2, 3] (-1) = [1, 2] := by decide
example : pySlice [1, 2, 3] 0 = ([] : List Nat) := by decide

end MakeOurBetter

/-! ## Claim theorems -/

namespace MakeOurBetter

/-- Claim C3 counterexample: the claim asserts `tokenize "A a AA"` yields
the set containing both `"a"` and `"aa"`, but the code's length-2 floor
drops `"a"`: the result is exactly `{"aa"}`. -/
theorem C3_counterexample :
    "a" ∉ tokenize "A a AA" ∧ tokenize "A a AA" = ["aa"] := by decide

/-- Claim C3 (amended): `tokenize` is deterministic (equal inputs give
equal output sets) and `tokenize "A a AA"` yields the set `{"aa"}`:
lowercased, runs shorter than 2 characters removed (so the run `"a"` is
dropped), duplicates removed. -/
theorem C3_amended :
    (∀ s t : String, s = t → tokenize s = tokenize t) ∧
    tokenize "A a AA" = ["aa"] :=
  ⟨fun _ _ h => h ▸ rfl, by decide⟩

/-- Witness for the amended C3 at a concrete input. -/
theorem C3_amended_witness :
    tokenize "Fix Leak" = tokenize "Fix Leak" ∧ tokenize "A a AA" = ["aa"] :=
  ⟨C3_amended.1 "Fix Leak" "Fix Leak" rfl, C3_amended.2⟩

/-- Claim C4 counterexample: the empty string is an id carried by no
stored record, yet `vote_experience` reports a missing-id validation
message for it, not `not_found` (the store is still unmutated). -/
theorem C4_counterexample :
    (∀ e ∈ read_all_experiences stOne, e.id ≠ some "") ∧
    vote_experience stOne (some "") ≠ (stOne, VoteResult.not_found) ∧
    vote_experience stOne (some "") = (stOne, VoteResult.missing_id) := by
  decide

/-- Claim C4 (amended): for every store state and every non-empty id not
carried by any stored record, `vote_experience` reports `not_found` and
leaves the store entirely unchanged (no rewrite occurs); an empty id is
instead rejected up front as missing, also without mutating the store. -/
theorem C4_amended (st : ServerState) (i : String) (hne : i ≠ "")
    (hno : ∀ e ∈ read_all_experiences st, e.id ≠ some i) :
    vote_experience st (some i) = (st, VoteResult.not_found) ∧
    vote_experience st (some "") = (st, VoteResult.missing_id) := by
  constructor
  · have hany : ((read_all_experiences st).any (fun e => e.id == some i)) = false := by
      rw [List.any_eq_false]
      intro e he
      simpa using hno e he
    rw [vote_experience, if_pos (idTruthy_some hne)]
    simp only [Option.getD_some]
    rw [if_neg (by simp [hany])]
  · rw [vote_experience, if_neg (by simp [idTruthy])]

/-- Witness for the amended C4 at a concrete input. -/
theorem C4_amended_witness :
    (("zz" : String) ≠ "") ∧
    (∀ e ∈ read_all_experiences stOne, e.id ≠ some "zz") ∧
    vote_experience stOne (some "zz") = (stOne, VoteResult.not_found) :=
  ⟨by decide, by decide,
    (C4_amended stOne "zz" (by decide) (by decide)).1⟩

/-- Claim C5: a successful `vote_experience i` rewrites the store so that
the parsed record sequence equals the old sequence with exactly the
records carrying id `i` getting `votes := votes + 1` (missing counted as
0) and every other record and the order untouched; the per-record votes
formula shows each successful call adds exactly one and never decreases
a counter. -/
theorem C5_vote_success_increments (st : ServerState) (i : String)
    (hsucc : (vote_experience st (some i)).2 = VoteResult.voted) :
    read_all_experiences (vote_experience st (some i)).1
      = (read_all_experiences st).map (bumpVote i) ∧
    ∀ e ∈ read_all_experiences st,
      (bumpVote i e).votes.getD 0
          = e.votes.getD 0 + (if e.id = some i then 1 else 0) ∧
        ((bumpVote i e).id = e.id ∧ (bumpVote i e).timestamp = e.timestamp ∧
          (bumpVote i e).title = e.title ∧ (bumpVote i e).problem = e.problem ∧
          (bumpVote i e).solution = e.solution ∧
          (bumpVote i e).keywords = e.keywords ∧
          (bumpVote i e).context = e.context) := by
  have hside : ∀ e ∈ read_all_experiences st,
      (bumpVote i e).votes.getD 0
          = e.votes.getD 0 + (if e.id = some i then 1 else 0) ∧
        ((bumpVote i e).id = e.id ∧ (bumpVote i e).timestamp = e.timestamp ∧
          (bumpVote i e).title = e.title ∧ (bumpVote i e).problem = e.problem ∧
          (bumpVote i e).solution = e.solution ∧
          (bumpVote i e).keywords = e.keywords ∧
          (bumpVote i e).context = e.context) := by
    intro e _
    by_cases h : e.id = some i
    · simp [bumpVote, h]
    · simp [bumpVote, h]
  refine ⟨?_, hside⟩
  by_cases htr : idTruthy (some i) = true
  · by_cases hany : ((read_all_experiences st).any (fun e => e.id == some i)) = true
    · have hne : i ≠ "" := by simpa [idTruthy] using htr
      rw [vote_rewrite st i hne hany]
      simp only [read_all_experiences]
      exact goodEntries_map_good _
    · exfalso
      rw [vote_experience, if_pos htr] at hsucc
      simp only [Option.getD_some] at hsucc
      rw [if_neg hany] at hsucc
      exact VoteResult.noConfusion hsucc
  · exfalso
    rw [vote_experience, if_neg htr] at hsucc
    exact VoteResult.noConfusion hsucc

/-- Witness for C5 at a concrete input: voting for `"id-1"` in a
one-record store succeeds and bumps that record's votes from 1 to 2. -/
theorem C5_witness :
    (vote_experience stOne (some "id-1")).2 = VoteResult.voted ∧
    read_all_experiences (vote_experience stOne (some "id-1")).1
      = (read_all_experiences stOne).map (bumpVote "id-1") :=
  ⟨by decide, (C5_vote_success_increments stOne "id-1" (by decide)).1⟩

/-- Claim C8: reading and index building skip corrupt/empty lines
without error — inserting a bad line anywhere in a log changes neither
`read_all_experiences` nor `build_index`; in particular a log of one
well-formed line and one corrupt line reads back exactly the well-formed
record, and indexes only that record's terms. -/
theorem C8_bad_lines_skipped (l₁ l₂ : List LogLine) (ix : Option Index) :
    read_all_experiences ⟨some (l₁ ++ LogLine.bad :: l₂), ix⟩
        = read_all_experiences ⟨some (l₁ ++ l₂), ix⟩ ∧
    build_index ⟨some (l₁ ++ LogLine.bad :: l₂), ix⟩
        = build_index ⟨some (l₁ ++ l₂), ix⟩ ∧
    read_all_experiences stNoIds = [expNoId] ∧
    build_index stNoIds
        = build_index ⟨some [LogLine.good expNoId], none⟩ := by
  have hread : read_all_experiences ⟨some (l₁ ++ LogLine.bad :: l₂), ix⟩
      = read_all_experiences ⟨some (l₁ ++ l₂), ix⟩ := by
    simp only [read_all_experiences, goodEntries_append, goodEntries_bad]
  refine ⟨hread, ?_, by decide, by decide⟩
  simp only [build_index, hread]

end MakeOurBetter

namespace MakeOurBetter

/-- Claim C10: a stored record that has an id but no votes field is
ranked by `search_experience` as if its votes were 0 (the votes-map
lookup the sort key uses yields 0), and a successful `vote_experience`
on its id sets the votes field to exactly 1. -/
theorem C10_missing_votes (st : ServerState) (i : String) (e : Exp)
    (hne : i ≠ "") (hid : e.id = some i) (hv : e.votes = none)
    (hmem : e ∈ read_all_experiences st)
    (hlast : idToEntry (read_all_experiences st) i = some e) :
    votesFor (read_all_experiences st) i = 0 ∧
    (vote_experience st (some i)).2 = VoteResult.voted ∧
    read_all_experiences (vote_experience st (some i)).1
      = (read_all_experiences st).map (bumpVote i) ∧
    bumpVote i e = { e with votes := some 1 } := by
  have hany : ((read_all_experiences st).any (fun x => x.id == some i)) = true := by
    rw [List.any_eq_true]
    exact ⟨e, hmem, by simp [hid]⟩
  have hrw := vote_rewrite st i hne hany
  refine ⟨?_, ?_, ?_, ?_⟩
  · simp [votesFor, hlast, hv]
  · rw [hrw]
  · rw [hrw]
    simp only [read_all_experiences]
    exact goodEntries_map_good _
  · simp [bumpVote, hid, hv]

/-- Witness for C10 at a concrete input: a record with no votes field is
ranked at 0 votes, and one vote sets its field to exactly 1. -/
theorem C10_missing_votes_witness :
    votesFor (read_all_experiences stNoVotes) "id-n" = 0 ∧
    bumpVote "id-n" expNoVotes = { expNoVotes with votes := some 1 } :=
  ⟨(C10_missing_votes stNoVotes "id-n" expNoVotes (by decide) (by decide)
      (by decide) (by decide) (by decide)).1,
   (C10_missing_votes stNoVotes "id-n" expNoVotes (by decide) (by decide)
      (by decide) (by decide) (by decide)).2.2.2⟩

/-- Claim C6 counterexample: a caller-supplied limit of 0 is not
replaced by the default of 5 — the search returns nothing although a
candidate exists, while the absent-limit default returns it. -/
theorem C6_counterexample :
    search_experience stOne "memory" (some 0) = [] ∧
    search_experience stOne "memory" none = [(expMem1, some 1)] := by decide

/-- Claim C6 (amended): the default limit 5 is used only when the caller
omits `limit` (an absent limit behaves exactly like limit 5); a supplied
integer is applied verbatim as a Python slice bound, so for any supplied
n ≥ 0 the result list has at most n entries (n = 0 yields no results
rather than falling back to the default). -/
theorem C6_amended :
    (∀ (st : ServerState) (q : String),
      search_experience st q none = search_experience st q (some 5)) ∧
    (∀ (st : ServerState) (q : String) (n : Int), 0 ≤ n →
      (search_experience st q (some n)).length ≤ n.toNat) := by
  constructor
  · intro st q
    rfl
  · intro st q n hn
    cases hf : st.expFile with
    | none => simp [search_experience, hf]
    | some lines =>
      by_cases h1 : tokenize q = []
      · simp [search_experience, hf, h1]
      · by_cases h2 : build_index st = []
        · simp only [search_experience, hf, if_neg h1, if_pos h2]
          rw [linear_search, List.length_map]
          exact length_pySlice_le _ hn
        · by_cases h3 : entryScores (build_index st) (tokenize q) = []
          · simp [search_experience, hf, h1, h2, h3]
          · simp only [search_experience, hf, if_neg h1, if_neg h2, if_neg h3]
            rw [rankCandidates]
            calc ((pySlice (stableSort _ _) _).filterMap _).length
                ≤ (pySlice (stableSort _ _) _).length := List.length_filterMap_le _ _
              _ ≤ n.toNat := length_pySlice_le _ hn

/-- Witness for the amended C6 at a concrete input. -/
theorem C6_amended_witness :
    search_experience stOne "memory" none = search_experience stOne "memory" (some 5) ∧
    ((0 : Int) ≤ 2) ∧ (search_experience stOne "memory" (some 2)).length ≤ (2 : Int).toNat :=
  ⟨C6_amended.1 stOne "memory", by decide, C6_amended.2 stOne "memory" 2 (by decide)⟩

/-- Claim C7 counterexample: with `title` missing, `record_experience`
does not report a descriptive failure and does write — the entry line is
appended to the log and the call ends in an uncaught `TypeError`; and on
success the returned message carries the title but not the new id. -/
theorem C7_counterexample :
    (record_experience st0 none (some "p") (some "s") "" "" "uuid-1" "now").2
        = CallResult.typeError ∧
    (record_experience st0 none (some "p") (some "s") "" "" "uuid-1" "now").1.expFile
        = some [LogLine.good (mkEntry none (some "p") (some "s") "" "" "uuid-1" "now")] ∧
    (record_experience st0 (some "T") (some "p") (some "s") "" "" "uuid-1" "now").2
        = CallResult.text "Experience recorded: 'T' - stored for future reference" ∧
    hasSubstring "Experience recorded: 'T' - stored for future reference".data
        "uuid-1".data = false := by
  decide

/-- Claim C7 (amended): `record_experience` performs no input
validation.  With a required field missing it appends the entry (with
that field null) to the log and then fails with an uncaught `TypeError`
before touching the index — a partial write occurs and no descriptive
message is returned.  With all required fields present it always
succeeds (absent storage I/O failure) and returns a message carrying
the new record's title (the id is not part of the reply). -/
theorem C7_amended (st : ServerState) (title problem solution : Option String)
    (kw cx newId now : String) :
    (title = none ∨ problem = none ∨ solution = none →
      record_experience st title problem solution kw cx newId now
        = ({ st with
              expFile := some ((st.expFile.getD []) ++ [LogLine.good (mkEntry title problem solution kw cx newId now)]) },
          CallResult.typeError)) ∧
    (∀ t p s, title = some t → problem = some p → solution = some s →
      (record_experience st title problem solution kw cx newId now).2
        = CallResult.text ("Experience recorded: '" ++ t ++ "' - stored for future reference")) := by
  constructor
  · intro h
    rcases title with _ | t
    · rfl
    · rcases problem with _ | p
      · rfl
      · rcases solution with _ | s
        · rfl
        · simp at h
  · rintro t p s rfl rfl rfl
    rfl

/-- Witness for the amended C7 at concrete inputs: one missing-title
call and one fully-specified call. -/
theorem C7_amended_witness :
    record_experience st0 none (some "p1") (some "s1") "" "" "u1" "n1"
      = ({ st0 with
            expFile := some [LogLine.good (mkEntry none (some "p1") (some "s1") "" "" "u1" "n1")] },
        CallResult.typeError) ∧
    (record_experience st0 (some "T1") (some "p1") (some "s1") "" "" "u1" "n1").2
      = CallResult.text ("Experience recorded: '" ++ "T1" ++ "' - stored for future reference") :=
  ⟨(C7_amended st0 none (some "p1") (some "s1") "" "" "u1" "n1").1 (Or.inl rfl),
   (C7_amended st0 (some "T1") (some "p1") (some "s1") "" "" "u1" "n1").2 "T1" "p1" "s1"
     rfl rfl rfl⟩

end MakeOurBetter

namespace MakeOurBetter

theorem pySlice_sublist {α : Type} (l : List α) (n : Int) :
    (pySlice l n).Sublist l := by
  rw [pySlice]
  by_cases h : 0 ≤ n
  · rw [if_pos h]
    exact List.take_sublist _ _
  · rw [if_neg h]
    exact List.take_sublist _ _

/-- Claim C9: when the query has at least one valid token but the
rebuilt index is empty, `search_experience` falls back to the linear
scan: it returns exactly the records whose lowercased concatenation of
title, problem, solution and keywords contains the lowercased raw query
as a substring, stably ordered by votes descending and truncated by the
limit, with no term-overlap score attached. -/
theorem C9_linear_fallback (st : ServerState) (lines : List LogLine)
    (query : String) (lim : Option Int)
    (hf : st.expFile = some lines)
    (htk : tokenize query ≠ [])
    (hidx : build_index st = []) :
    search_experience st query lim
        = (pySlice (stableSort (fun a b => decide ((b.votes.getD 0 : Int) ≤ a.votes.getD 0))
            ((goodEntries lines).filter
              (fun e => hasSubstring (toLowerStr (searchTextLinear e)).data
                (toLowerStr query).data)))
            (lim.getD 5)).map (fun e => (e, (none : Option Nat))) ∧
    (search_experience st query lim).Pairwise
        (fun a b => (b.1.votes.getD 0 : Int) ≤ a.1.votes.getD 0) ∧
    ∀ p ∈ search_experience st query lim,
      p.2 = none ∧
      hasSubstring (toLowerStr (searchTextLinear p.1)).data (toLowerStr query).data = true ∧
      p.1 ∈ goodEntries lines := by
  have hsearch : search_experience st query lim = linear_search lines query (lim.getD 5) := by
    simp only [search_experience, hf, if_neg htk, if_pos hidx]
  have htot : ∀ a b : Exp,
      (decide ((b.votes.getD 0 : Int) ≤ a.votes.getD 0) = true) ∨
      (decide ((a.votes.getD 0 : Int) ≤ b.votes.getD 0) = true) := by
    intro a b
    simp only [decide_eq_true_eq]
    exact (le_total _ _).symm.imp id id
  have htrans : ∀ a b c : Exp,
      decide ((b.votes.getD 0 : Int) ≤ a.votes.getD 0) = true →
      decide ((c.votes.getD 0 : Int) ≤ b.votes.getD 0) = true →
      decide ((c.votes.getD 0 : Int) ≤ a.votes.getD 0) = true := by
    intro a b c h1 h2
    simp only [decide_eq_true_eq] at h1 h2 ⊢
    exact le_trans h2 h1
  refine ⟨by rw [hsearch, linear_search], ?_, ?_⟩
  · rw [hsearch, linear_search, List.pairwise_map]
    have hs := pairwise_stableSort
      (fun a b => decide ((b.votes.getD 0 : Int) ≤ a.votes.getD 0)) htot htrans
      ((goodEntries lines).filter
        (fun e => hasSubstring (toLowerStr (searchTextLinear e)).data
          (toLowerStr query).data))
    have hp := List.Pairwise.sublist (pySlice_sublist _ (lim.getD 5)) hs
    exact hp.imp (by intro a b h; simpa using h)
  · intro p hp
    rw [hsearch, linear_search] at hp
    obtain ⟨e, he, rfl⟩ := List.mem_map.mp hp
    have he2 : e ∈ stableSort
        (fun a b => decide ((b.votes.getD 0 : Int) ≤ a.votes.getD 0))
        ((goodEntries lines).filter
          (fun e => hasSubstring (toLowerStr (searchTextLinear e)).data
            (toLowerStr query).data)) := (pySlice_sublist _ _).subset he
    rw [mem_stableSort, List.mem_filter] at he2
    exact ⟨rfl, he2.2, he2.1⟩

/-- Witness for C9 at a concrete input: a store whose only parsable
record lacks an id (so the rebuilt index is empty) is served by the
linear fallback, ordered by votes descending. -/
theorem C9_linear_fallback_witness :
    (search_experience stNoIds "hello" none).Pairwise
      (fun a b => (b.1.votes.getD 0 : Int) ≤ a.1.votes.getD 0) :=
  (C9_linear_fallback stNoIds [LogLine.good expNoId, LogLine.bad] "hello" none rfl
    (by decide) (by decide)).2.1

end MakeOurBetter

namespace MakeOurBetter

theorem searchLE_total (exps : List Exp) :
    ∀ a b : String × Nat, searchLE exps a b = true ∨ searchLE exps b a = true := by
  intro a b
  rw [searchLE, searchLE, decide_eq_true_eq, decide_eq_true_eq]
  rcases lt_trichotomy a.2 b.2 with h | h | h
  · exact Or.inr (Or.inl h)
  · rcases le_total (votesFor exps b.1) (votesFor exps a.1) with h2 | h2
    · exact Or.inl (Or.inr ⟨h, h2⟩)
    · exact Or.inr (Or.inr ⟨h.symm, h2⟩)
  · exact Or.inl (Or.inl h)

theorem searchLE_trans (exps : List Exp) :
    ∀ a b c : String × Nat, searchLE exps a b = true → searchLE exps b c = true →
      searchLE exps a c = true := by
  intro a b c h1 h2
  rw [searchLE, decide_eq_true_eq] at h1 h2 ⊢
  rcases h1 with h1 | ⟨h1e, h1v⟩
  · rcases h2 with h2 | ⟨h2e, h2v⟩
    · exact Or.inl (lt_trans h2 h1)
    · exact Or.inl (h2e ▸ h1)
  · rcases h2 with h2 | ⟨h2e, h2v⟩
    · exact Or.inl (h1e ▸ h2)
    · exact Or.inr ⟨h1e.trans h2e, le_trans h2v h1v⟩

/-- Claim C1: for every search whose query tokenizes to a non-empty term
set and whose rebuilt index is non-empty, the returned results are
ordered by the tuple (score descending, votes descending): any earlier
result has a strictly greater score than any later one, or an equal
score and at least as many votes. -/
theorem C1_ranking_order (st : ServerState) (query : String) (lim : Option Int)
    (htk : tokenize query ≠ []) (hidx : build_index st ≠ []) :
    (search_experience st query lim).Pairwise
      (fun a b => b.2.getD 0 < a.2.getD 0 ∨
        (a.2.getD 0 = b.2.getD 0 ∧ (b.1.votes.getD 0 : Int) ≤ a.1.votes.getD 0)) := by
  cases hf : st.expFile with
  | none =>
    exfalso
    apply hidx
    simp [build_index, read_all_experiences, hf]
  | some lines =>
    by_cases h3 : entryScores (build_index st) (tokenize query) = []
    · simp [search_experience, hf, if_neg htk, if_neg hidx, h3]
    · have hsr : search_experience st query lim
          = rankCandidates (goodEntries lines)
              (entryScores (build_index st) (tokenize query)) (lim.getD 5) := by
        simp only [search_experience, hf, if_neg htk, if_neg hidx, if_neg h3]
      rw [hsr, rankCandidates]
      have hs := pairwise_stableSort (searchLE (goodEntries lines))
        (searchLE_total _) (searchLE_trans _)
        (entryScores (build_index st) (tokenize query))
      have hp := List.Pairwise.sublist (pySlice_sublist _ (lim.getD 5)) hs
      refine pairwise_filterMap_of_pairwise _ ?_ _ hp
      intro a b x y hR hfa hfb
      cases hia : idToEntry (goodEntries lines) a.1 with
      | none => rw [hia] at hfa; cases hfa
      | some ea =>
        cases hib : idToEntry (goodEntries lines) b.1 with
        | none => rw [hib] at hfb; cases hfb
        | some eb =>
          rw [hia] at hfa
          rw [hib] at hfb
          injection hfa with hfa
          injection hfb with hfb
          subst hfa
          subst hfb
          rw [searchLE, decide_eq_true_eq] at hR
          have hva : votesFor (goodEntries lines) a.1 = ea.votes.getD 0 := by
            rw [votesFor, hia]
          have hvb : votesFor (goodEntries lines) b.1 = eb.votes.getD 0 := by
            rw [votesFor, hib]
          simp only [Option.getD_some]
          rcases hR with h | ⟨h1, h2⟩
          · exact Or.inl h
          · exact Or.inr ⟨h1, by rw [← hva, ← hvb]; exact h2⟩

/-- Witness for C1 at a concrete input: a two-record store and a query
matching both records. -/
theorem C1_ranking_order_witness :
    (search_experience stTwo "memory leak" none).Pairwise
      (fun a b => b.2.getD 0 < a.2.getD 0 ∨
        (a.2.getD 0 = b.2.getD 0 ∧ (b.1.votes.getD 0 : Int) ≤ a.1.votes.getD 0)) :=
  C1_ranking_order stTwo "memory leak" none (by decide) (by decide)

end MakeOurBetter

namespace MakeOurBetter

theorem le_sum_of_mem_map {l : List String} {t : String} (f : String → Nat)
    (h : t ∈ l) : f t ≤ (l.map f).sum := by
  induction l with
  | nil => cases h
  | cons x l ih =>
    rw [List.map_cons, List.sum_cons]
    rcases List.mem_cons.mp h with rfl | h
    · exact Nat.le_add_right _ _
    · exact le_trans (ih h) (Nat.le_add_left _ _)

/-- Claim C2: recording an experience whose title tokenizes to a term
`t` and then immediately searching with a query containing `t` returns
the newly recorded record among the results with score ≥ 1, whenever the
result cap admits the full candidate list. -/
theorem C2_record_search_roundtrip (st : ServerState)
    (titleS problemS solutionS kw cx newId now t query : String)
    (lim : Option Int)
    (hid : newId ≠ "")
    (ht : t ∈ tokenize titleS)
    (hq : t ∈ tokenize query)
    (hlim : ((entryScores
        (build_index (record_experience st (some titleS) (some problemS)
          (some solutionS) kw cx newId now).1) (tokenize query)).length : Int)
      ≤ lim.getD 5) :
    ∃ s : Nat, 1 ≤ s ∧
      (mkEntry (some titleS) (some problemS) (some solutionS) kw cx newId now, some s)
        ∈ search_experience
            (record_experience st (some titleS) (some problemS) (some solutionS)
              kw cx newId now).1 query lim := by
  set newRec := mkEntry (some titleS) (some problemS) (some solutionS) kw cx newId now
    with hnewRec
  set st' := (record_experience st (some titleS) (some problemS) (some solutionS)
    kw cx newId now).1 with hst'
  set lines := (st.expFile.getD []) ++ [LogLine.good newRec] with hlines
  have hfile : st'.expFile = some lines := rfl
  have hexps : goodEntries lines = goodEntries (st.expFile.getD []) ++ [newRec] := by
    rw [hlines, goodEntries_append, goodEntries_good]
    rfl
  have hread : read_all_experiences st' = goodEntries lines := by
    simp only [read_all_experiences, hfile]
  have h1 := mem_tokenize_append t titleS problemS ht
  have h2 := mem_tokenize_append t (titleS ++ " " ++ problemS) solutionS h1
  have h3 := mem_tokenize_append t (titleS ++ " " ++ problemS ++ " " ++ solutionS) kw h2
  have h4 := mem_tokenize_append t
    (titleS ++ " " ++ problemS ++ " " ++ solutionS ++ " " ++ kw) cx h3
  have htfull : t ∈ tokenize (searchTextFull newRec) := h4
  have hidt : idTruthy newRec.id = true := idTruthy_some hid
  have hbuild : build_index st'
      = addEntryToIndex ((goodEntries (st.expFile.getD [])).foldl addEntryToIndex [])
          newRec := by
    rw [build_index, hread, hexps, List.foldl_append, List.foldl_cons, List.foldl_nil]
  have hmemidx : newId ∈ (indexGet (build_index st') t).getD [] := by
    rw [hbuild, addEntryToIndex, if_pos hidt]
    exact mem_indexGet_foldl_upsert_of_mem _ newId t htfull _
  have hscore : 1 ≤ scoreLookup (entryScores (build_index st') (tokenize query)) newId := by
    rw [scoreLookup_entryScores]
    have hcount : 1 ≤ ((indexGet (build_index st') t).getD []).count newId :=
      List.count_pos_iff.mpr hmemidx
    exact le_trans hcount
      (le_sum_of_mem_map (fun tok => ((indexGet (build_index st') tok).getD []).count newId) hq)
  have hq_ne : tokenize query ≠ [] := by
    intro h
    rw [h] at hq
    cases hq
  have hidx_ne : build_index st' ≠ [] := indexGet_ne_nil _ t newId hmemidx
  have hmem_scores :
      (newId, scoreLookup (entryScores (build_index st') (tokenize query)) newId)
        ∈ entryScores (build_index st') (tokenize query) :=
    mem_of_scoreLookup_pos _ _ hscore
  have hscores_ne : entryScores (build_index st') (tokenize query) ≠ [] := by
    intro h
    rw [h] at hmem_scores
    cases hmem_scores
  have hsr : search_experience st' query lim
      = rankCandidates (goodEntries lines)
          (entryScores (build_index st') (tokenize query)) (lim.getD 5) := by
    simp only [search_experience, hfile, if_neg hq_ne, if_neg hidx_ne, if_neg hscores_ne]
  have hsorted_len : ((stableSort (searchLE (goodEntries lines))
      (entryScores (build_index st') (tokenize query))).length : Int) ≤ lim.getD 5 := by
    rw [length_stableSort]
    exact hlim
  have hslice : pySlice (stableSort (searchLE (goodEntries lines))
      (entryScores (build_index st') (tokenize query))) (lim.getD 5)
      = stableSort (searchLE (goodEntries lines))
          (entryScores (build_index st') (tokenize query)) :=
    pySlice_eq_self hsorted_len
  have hlast : idToEntry (goodEntries lines) newId = some newRec := by
    rw [hexps]
    exact idToEntry_concat _ newRec newId rfl hid
  refine ⟨scoreLookup (entryScores (build_index st') (tokenize query)) newId, hscore, ?_⟩
  rw [hsr, rankCandidates, hslice]
  refine List.mem_filterMap.mpr
    ⟨(newId, scoreLookup (entryScores (build_index st') (tokenize query)) newId), ?_, ?_⟩
  · exact (mem_stableSort _ _ _).mpr hmem_scores
  · rw [hlast]

/-- Witness for C2 at a concrete input: record into an empty store, then
search for a title word. -/
theorem C2_record_search_roundtrip_witness :
    ∃ s : Nat, 1 ≤ s ∧
      (mkEntry (some "Memory leak fix") (some "p2") (some "s2") "" "" "u2" "n2", some s)
        ∈ search_experience
            (record_experience st0 (some "Memory leak fix") (some "p2") (some "s2")
              "" "" "u2" "n2").1 "memory" none :=
  C2_record_search_roundtrip st0 "Memory leak fix" "p2" "s2" "" "" "u2" "n2"
    "memory" "memory" none (by decide) (by decide) (by decide) (by decide)

end MakeOurBetter
